import Mathlib

/-!
Verification of the Verval-Bapenda-Kampar extraction/validation client.

The development shallowly embeds the two source files of the repository:
the extraction client (`withRetry`, `processTaxPDF`) and the UI
orchestrator (`handleFileUpload`, `generateSummary`, `exportToCSV`).
Numeric amounts are embedded as rationals, errors as `Except String`,
and the asynchronous retry loop as a pure function that also returns the
trace of its back-off waits and the number of calls it made.
-/

/-- `leadsChars pat l` is true when `pat` is an initial segment of `l`. -/
def leadsChars : List Char → List Char → Bool
  | [], _ => true
  | _ :: _, [] => false
  | a :: pat, b :: l => a == b && leadsChars pat l

/-- `occursChars pat l` is true when `pat` occurs contiguously in `l`. -/
def occursChars : List Char → List Char → Bool
  | pat, [] => pat.isEmpty
  | pat, c :: rest => leadsChars pat (c :: rest) || occursChars pat rest

/-- JS `String.prototype.includes`: substring containment. -/
def jsIncludes (s sub : String) : Bool :=
  occursChars sub.toList s.toList

/-- `withRetry`: an error is retryable when its message contains
`429`, `500` or `503` as a substring (source line 36). -/
def isRetryable (msg : String) : Bool :=
  jsIncludes msg "429" || jsIncludes msg "500" || jsIncludes msg "503"

/-- Result of a run of `withRetry`: the returned value or thrown error,
the list of back-off waits performed (in ms), and how many times the
wrapped function was called. -/
structure RetryTrace (α : Type) where
  result : Except String α
  waits : List Nat
  calls : Nat

/-- The loop body of `withRetry` (source lines 31-45): `n` is the number
of remaining iterations (`maxRetries - i`), `i` the index of the next
attempt, `delay` the current back-off delay, `waits` the waits so far.
The `n = 0` disjunct inside the error branch is the source's
`i === maxRetries - 1` check; the outer `n = 0` case is the
`throw new Error("Max retries exceeded")` after the loop. -/
def runAttempts {α : Type} (fn : Nat → Except String α) :
    Nat → Nat → Nat → List Nat → RetryTrace α
  | 0, i, _, waits => ⟨Except.error "Max retries exceeded", waits, i⟩
  | n + 1, i, delay, waits =>
    match fn i with
    | Except.ok v => ⟨Except.ok v, waits, i + 1⟩
    | Except.error msg =>
      if n = 0 ∨ isRetryable msg = false then ⟨Except.error msg, waits, i + 1⟩
      else runAttempts fn n (i + 1) (delay * 2) (waits ++ [delay])

/-- `withRetry(fn, maxRetries)`: run up to `maxRetries` attempts with
exponential back-off starting at 2000 ms and doubling after each failed
attempt. The `i`-th call of the wrapped function is modelled as `fn i`. -/
def withRetry {α : Type} (fn : Nat → Except String α) (maxRetries : Nat) :
    RetryTrace α :=
  runAttempts fn maxRetries 0 2000 []

theorem runAttempts_step {α : Type} (fn : Nat → Except String α)
    (n i delay : Nat) (waits : List Nat) :
    runAttempts fn (n + 1) i delay waits =
      match fn i with
      | Except.ok v => ⟨Except.ok v, waits, i + 1⟩
      | Except.error msg =>
        if n = 0 ∨ isRetryable msg = false then
          ⟨Except.error msg, waits, i + 1⟩
        else runAttempts fn n (i + 1) (delay * 2) (waits ++ [delay]) :=
  rfl

theorem runAttempts_persistent {α : Type} (fn : Nat → Except String α)
    (m : Nat → String) (hf : ∀ i, fn i = Except.error (m i))
    (hr : ∀ i, isRetryable (m i) = true) :
    ∀ n i d w, 1 ≤ n →
      runAttempts fn n i d w =
        ⟨Except.error (m (i + n - 1)),
         w ++ (List.range (n - 1)).map (fun j => d * 2 ^ j), i + n⟩ := by
  intro n
  induction n with
  | zero => intro i d w h; omega
  | succ k ih =>
    intro i d w _
    cases k with
    | zero => simp [runAttempts_step, hf i]
    | succ k2 =>
      rw [runAttempts_step, hf i]
      simp only []
      rw [if_neg (by simp [hr i])]
      rw [ih (i + 1) (d * 2) (w ++ [d]) (by omega)]
      have h1 : i + 1 + (k2 + 1) - 1 = i + (k2 + 1 + 1) - 1 := by omega
      have h2 : i + 1 + (k2 + 1) = i + (k2 + 1 + 1) := by omega
      have h3 : w ++ [d] ++ (List.range (k2 + 1 - 1)).map
            (fun j => d * 2 * 2 ^ j) =
          w ++ (List.range (k2 + 1 + 1 - 1)).map (fun j => d * 2 ^ j) := by
        simp only [Nat.add_sub_cancel]
        rw [List.range_succ_eq_map, List.map_cons, List.map_map,
          List.append_assoc]
        congr 1
        simp only [pow_zero, mul_one, List.singleton_append]
        congr 1
        apply List.map_congr_left
        intro j hj
        simp [Function.comp, Nat.pow_succ]
        ring
      rw [h1, h2, h3]

theorem runAttempts_waits_mono {α : Type} (fn : Nat → Except String α) :
    ∀ n i d w x, x ∈ w → x ∈ (runAttempts fn n i d w).waits := by
  intro n
  induction n with
  | zero => intro i d w x hx; simpa [runAttempts] using hx
  | succ k ih =>
    intro i d w x hx
    simp only [runAttempts]
    cases hfn : fn i with
    | ok v => simpa using hx
    | error msg =>
      by_cases hg : k = 0 ∨ isRetryable msg = false
      · simp only [if_pos hg]; exact hx
      · simp only [if_neg hg]
        exact ih (i + 1) (d * 2) (w ++ [d]) x (by simp [hx])

theorem runAttempts_calls_ge {α : Type} (fn : Nat → Except String α) :
    ∀ n i d w, 1 ≤ n → i + 1 ≤ (runAttempts fn n i d w).calls := by
  intro n
  induction n with
  | zero => intro i d w h; omega
  | succ k ih =>
    intro i d w _
    simp only [runAttempts]
    cases hfn : fn i with
    | ok v => simp
    | error msg =>
      by_cases hg : k = 0 ∨ isRetryable msg = false
      · simp only [if_pos hg]; omega
      · simp only [if_neg hg]
        have hk : 1 ≤ k := by
          rcases Nat.eq_zero_or_pos k with h0 | h0
          · exact absurd (Or.inl h0) hg
          · exact h0
        have := ih (i + 1) (d * 2) (w ++ [d]) hk
        omega

/-- C3: with the default budget of 3 attempts, a function that fails on
its first two calls with 429-bearing messages and succeeds on the third
makes the wrapper return the third call's result after exactly the two
waits 2000 ms and 4000 ms (and exactly 3 calls). -/
theorem withRetry_two_429_then_success {α : Type}
    (fn : Nat → Except String α) (v : α) (m0 m1 : String)
    (h0 : fn 0 = Except.error m0) (h1 : fn 1 = Except.error m1)
    (h2 : fn 2 = Except.ok v)
    (r0 : jsIncludes m0 "429" = true) (r1 : jsIncludes m1 "429" = true) :
    withRetry fn 3 = ⟨Except.ok v, [2000, 4000], 3⟩ := by
  have hr0 : isRetryable m0 = true := by simp [isRetryable, r0]
  have hr1 : isRetryable m1 = true := by simp [isRetryable, r1]
  show runAttempts fn 3 0 2000 [] = _
  rw [runAttempts_step, h0]
  simp only []
  rw [if_neg (by simp [hr0])]
  rw [runAttempts_step, h1]
  simp only []
  rw [if_neg (by simp [hr1])]
  rw [runAttempts_step, h2]
  simp

def fnC3 : Nat → Except String Nat :=
  fun i => if i = 0 then Except.error "HTTP 429 rate limited"
    else if i = 1 then Except.error "again 429"
    else Except.ok 7

theorem withRetry_two_429_then_success_witness :
    fnC3 0 = Except.error "HTTP 429 rate limited" ∧
    jsIncludes "HTTP 429 rate limited" "429" = true ∧
    withRetry fnC3 3 = ⟨Except.ok 7, [2000, 4000], 3⟩ :=
  ⟨rfl, by decide,
    withRetry_two_429_then_success fnC3 7 "HTTP 429 rate limited" "again 429"
      rfl rfl rfl (by decide) (by decide)⟩

/-- C4: `withRetry` retries exactly the errors whose message contains
`429`, `500` or `503`. (a) A first-call error with none of those
substrings propagates at once: no wait, a single call. (b) A persistent
retryable error is attempted exactly `maxRetries` times, with doubling
waits, and the last error propagates. (c) A retryable first-call error
is retried when budget remains: the 2000 ms wait happens and a second
call is made. -/
theorem withRetry_retry_policy {α : Type} (fn : Nat → Except String α)
    (maxRetries : Nat) (hmr : 1 ≤ maxRetries) :
    (∀ m, fn 0 = Except.error m → isRetryable m = false →
      withRetry fn maxRetries = ⟨Except.error m, [], 1⟩) ∧
    (∀ m : Nat → String, (∀ i, fn i = Except.error (m i)) →
      (∀ i, isRetryable (m i) = true) →
      withRetry fn maxRetries =
        ⟨Except.error (m (maxRetries - 1)),
         (List.range (maxRetries - 1)).map (fun j => 2000 * 2 ^ j),
         maxRetries⟩) ∧
    (∀ m, fn 0 = Except.error m → isRetryable m = true → 2 ≤ maxRetries →
      2000 ∈ (withRetry fn maxRetries).waits ∧
      2 ≤ (withRetry fn maxRetries).calls) := by
  refine ⟨?_, ?_, ?_⟩
  · intro m h0 hnr
    cases maxRetries with
    | zero => omega
    | succ k =>
      show runAttempts fn (k + 1) 0 2000 [] = _
      rw [runAttempts_step, h0]
      simp only []
      rw [if_pos (Or.inr hnr)]
  · intro m hf hr
    have := runAttempts_persistent fn m hf hr maxRetries 0 2000 [] hmr
    simpa [withRetry] using this
  · intro m h0 hret h2
    have hk2 : ∃ k, maxRetries = k + 2 := ⟨maxRetries - 2, by omega⟩
    rcases hk2 with ⟨k, rfl⟩
    have hguard : ¬(k + 1 = 0 ∨ isRetryable m = false) := by
      simp [hret]
    constructor
    · show 2000 ∈ (runAttempts fn (k + 1 + 1) 0 2000 []).waits
      rw [runAttempts_step, h0]
      simp only []
      rw [if_neg hguard]
      exact runAttempts_waits_mono fn (k + 1) 1 4000 [2000] 2000 (by simp)
    · show 2 ≤ (runAttempts fn (k + 1 + 1) 0 2000 []).calls
      rw [runAttempts_step, h0]
      simp only []
      rw [if_neg hguard]
      exact runAttempts_calls_ge fn (k + 1) 1 4000 [2000] (by omega)

def fnC4 : Nat → Except String Nat :=
  fun _ => Except.error "fatal 400 bad request"

theorem withRetry_retry_policy_witness :
    (fnC4 0 = Except.error "fatal 400 bad request" ∧
      isRetryable "fatal 400 bad request" = false) ∧
    withRetry fnC4 3 = ⟨Except.error "fatal 400 bad request", [], 1⟩ :=
  ⟨⟨rfl, by decide⟩,
    (withRetry_retry_policy fnC4 3 (by decide)).1 "fatal 400 bad request"
      rfl (by decide)⟩

/-- The record shape produced by `processTaxPDF` (`types.ts`): arrears
is the normalized year→amount map, kept as an association list whose
key order is the ascending numeric key order a JS object gives integer
keys. `none` is the explicit `null` "no data" marker. -/
structure TaxRecord where
  nama : String
  nop : String
  arrears : List (Int × Option ℚ)
  total : ℚ
  notes : List String
deriving DecidableEq

/-- One element of the model's parsed JSON array: name, object id, and
the extracted `{year, kurangBayar}` pairs. -/
structure ExtractedItem where
  nama : String
  nop : String
  arrears : List (Int × ℚ)
deriving DecidableEq

/-- The user-facing quota-exceeded banner text (`App.tsx` line 69). -/
def quotaMessage : String :=
  "Kuota API sistem saat ini penuh (Rate Limit Exceeded). Silakan gunakan \x27API Key Sendiri\x27 dari Google AI Studio atau coba lagi dalam beberapa menit."

/-- The user-facing generic failure banner text (`App.tsx` line 71). -/
def genericMessage : String :=
  "Gagal memproses file. Pastikan dokumen jelas dan format PDF/Gambar didukung."

/-- The per-file loop body of `handleFileUpload` (`App.tsx` lines 36-62):
each file's extraction outcome is given as an `Except`; successes are
accumulated into `newRecords` (`acc`), and the first failure is
re-thrown, replaced by the `QUOTA_EXCEEDED` sentinel when its message
contains `429`. -/
def collectBatch :
    List (Except String (List TaxRecord)) → List TaxRecord →
      Except String (List TaxRecord)
  | [], acc => Except.ok acc
  | Except.ok rs :: rest, acc => collectBatch rest (acc ++ rs)
  | Except.error msg :: _, _ =>
    Except.error (if jsIncludes msg "429" then "QUOTA_EXCEEDED" else msg)

/-- `handleFileUpload` (`App.tsx` lines 26-78) as a state transformer on
the visible record list: given the previously committed records and the
batch's per-file extraction outcomes, return the new record list and the
error banner (if any). Records are committed only when the whole batch
succeeds; the outer catch maps the thrown error to one of the two
banner messages. -/
def handleFileUpload (prev : List TaxRecord)
    (files : List (Except String (List TaxRecord))) :
    List TaxRecord × Option String :=
  match collectBatch files [] with
  | Except.ok newRecords => (prev ++ newRecords, none)
  | Except.error msg =>
    (prev,
      some (if msg = "QUOTA_EXCEEDED" ∨ jsIncludes msg "429" = true then
        quotaMessage
      else genericMessage))

/-- The records carried by a successful per-file outcome. -/
def okRecords : Except String (List TaxRecord) → Option (List TaxRecord)
  | Except.ok rs => some rs
  | Except.error _ => none

theorem collectBatch_error_of_mem (files : List (Except String (List TaxRecord)))
    (hmem : ∃ m, Except.error m ∈ files) :
    ∀ acc, ∃ m2, collectBatch files acc = Except.error m2 := by
  induction files with
  | nil => rcases hmem with ⟨m, hm⟩; simp at hm
  | cons f rest ih =>
    intro acc
    cases f with
    | ok rs =>
      rcases hmem with ⟨m, hm⟩
      have hm2 : Except.error m ∈ rest := by
        rcases List.mem_cons.mp hm with h | h
        · exact absurd h (by simp)
        · exact h
      exact ih ⟨m, hm2⟩ (acc ++ rs)
    | error msg =>
      exact ⟨_, rfl⟩

theorem collectBatch_ok_of_all_ok (files : List (Except String (List TaxRecord)))
    (hok : ∀ f ∈ files, ∃ rs, f = Except.ok rs) :
    ∀ acc, collectBatch files acc =
      Except.ok (acc ++ (files.filterMap okRecords).flatten) := by
  induction files with
  | nil => intro acc; simp [collectBatch]
  | cons f rest ih =>
    intro acc
    rcases hok f (by simp) with ⟨rs, rfl⟩
    have hrest : ∀ f ∈ rest, ∃ rs, f = Except.ok rs :=
      fun f hf => hok f (by simp [hf])
    simp only [collectBatch]
    rw [ih hrest (acc ++ rs)]
    simp [okRecords, List.filterMap_cons]

/-- C5: batch processing is all-or-nothing for the visible record list.
If any file of the batch fails, the record list stays exactly the
previously committed one (earlier batches untouched, the failing batch's
already-extracted successes discarded); if every file succeeds, all of
the batch's records are appended in order and no banner is shown. -/
theorem handleFileUpload_all_or_nothing (prev : List TaxRecord)
    (files : List (Except String (List TaxRecord))) :
    ((∃ m, Except.error m ∈ files) → (handleFileUpload prev files).1 = prev) ∧
    ((∀ f ∈ files, ∃ rs, f = Except.ok rs) →
      handleFileUpload prev files =
        (prev ++ (files.filterMap okRecords).flatten, none)) := by
  constructor
  · intro hmem
    rcases collectBatch_error_of_mem files hmem [] with ⟨m2, hm2⟩
    simp [handleFileUpload, hm2]
  · intro hok
    have := collectBatch_ok_of_all_ok files hok []
    simp only [List.nil_append] at this
    simp [handleFileUpload, this]

def recNop (nop : String) : TaxRecord := ⟨"", nop, [], 0, []⟩

def filesC5 : List (Except String (List TaxRecord)) :=
  [Except.ok [recNop "A"], Except.error "boom", Except.ok [recNop "B"]]

theorem handleFileUpload_all_or_nothing_witness :
    Except.error "boom" ∈ filesC5 ∧
    (handleFileUpload [recNop "P"] filesC5).1 = [recNop "P"] :=
  ⟨by simp [filesC5],
    (handleFileUpload_all_or_nothing [recNop "P"] filesC5).1
      ⟨"boom", by simp [filesC5]⟩⟩

/-- `n` consecutive years starting at `s`, mirroring the
`for (let y = START_YEAR; y <= END_YEAR; y++)` loop shape. -/
def yearsFrom (s : Int) : Nat → List Int
  | 0 => []
  | n + 1 => s :: yearsFrom (s + 1) n

/-- Modelled from the spec: the `YEARS` constant of the missing
`constants.ts` module, the inclusive list of configured years
`[START_YEAR..END_YEAR]` (empty when `e < s`). The development is
parametric in the two bounds. -/
def yearsList (s e : Int) : List Int :=
  yearsFrom s (e + 1 - s).toNat

/-- The `// Initialize years` loop of `processTaxPDF` (lines 83-86):
every configured year is pre-populated with the `null` marker. -/
def initMap (s e : Int) : List (Int × Option ℚ) :=
  (yearsList s e).map (fun y => (y, none))

/-- `arrearsMap[y] = v`: overwrite the entry of an existing key. -/
def setYear (m : List (Int × Option ℚ)) (y : Int) (v : ℚ) :
    List (Int × Option ℚ) :=
  m.map (fun p => if p.1 = y then (p.1, some v) else p)

/-- The `// Fill with extracted data` loop (lines 89-93): each extracted
pair whose year is within `[s, e]` overwrites that year's entry. -/
def fillMap (s e : Int) (arrears : List (Int × ℚ))
    (m : List (Int × Option ℚ)) : List (Int × Option ℚ) :=
  arrears.foldl
    (fun acc a => if s ≤ a.1 ∧ a.1 ≤ e then setYear acc a.1 a.2 else acc) m

/-- The normalized year→amount map built by `processTaxPDF`. -/
def buildArrearsMap (s e : Int) (arrears : List (Int × ℚ)) :
    List (Int × Option ℚ) :=
  fillMap s e arrears (initMap s e)

/-- `numVal !== null && numVal > 0 ? numVal : 0` (line 96). -/
def posVal : Option ℚ → ℚ
  | some x => if 0 < x then x else 0
  | none => 0

/-- The `// Calculate total` reduce (lines 95-98). -/
def totalOf (m : List (Int × Option ℚ)) : ℚ :=
  m.foldl (fun sum p => sum + posVal p.2) 0

/-- The record built for one extracted item (lines 100-106). -/
def mkRecord (s e : Int) (item : ExtractedItem) : TaxRecord :=
  ⟨item.nama, item.nop, buildArrearsMap s e item.arrears,
    totalOf (buildArrearsMap s e item.arrears), []⟩

/-- The `rawData.map(...)` normalization of `processTaxPDF`. -/
def processItems (s e : Int) (items : List ExtractedItem) : List TaxRecord :=
  items.map (mkRecord s e)

/-- Reading `arrearsMap[y]`: `none` when the key is absent,
`some v` when the key is present with value `v`. -/
def lookupYear (m : List (Int × Option ℚ)) (y : Int) : Option (Option ℚ) :=
  (m.find? (fun p => p.1 == y)).map Prod.snd

/-- The value the claim predicts for year `y`: absent when no extracted
pair carries year `y`, otherwise the amount of the last such pair. -/
def specYearValue (arrears : List (Int × ℚ)) (y : Int) : Option ℚ :=
  ((arrears.filter (fun a => a.1 == y)).getLast?).map Prod.snd

/-- The effect of the fill loop on the single key `y`. -/
def foldValue (s e : Int) (arrears : List (Int × ℚ)) (b : Option ℚ)
    (y : Int) : Option ℚ :=
  arrears.foldl
    (fun acc a => if (s ≤ a.1 ∧ a.1 ≤ e) ∧ a.1 = y then some a.2 else acc) b

theorem mem_yearsFrom :
    ∀ (n : Nat) (s y : Int), y ∈ yearsFrom s n ↔ s ≤ y ∧ y < s + n := by
  intro n
  induction n with
  | zero =>
    intro s y
    simp only [yearsFrom, List.not_mem_nil, false_iff, Nat.cast_zero]
    omega
  | succ k ih =>
    intro s y
    simp only [yearsFrom, List.mem_cons, ih (s + 1) y]
    push_cast
    constructor
    · rintro (rfl | h) <;> omega
    · intro h
      by_cases hy : y = s
      · exact Or.inl hy
      · exact Or.inr (by omega)

theorem mem_yearsList (s e y : Int) : y ∈ yearsList s e ↔ s ≤ y ∧ y ≤ e := by
  rw [yearsList, mem_yearsFrom]
  constructor <;> intro h <;> constructor <;> omega

theorem setYear_map_fst (m : List (Int × Option ℚ)) (y : Int) (v : ℚ) :
    (setYear m y v).map Prod.fst = m.map Prod.fst := by
  simp only [setYear, List.map_map]
  apply List.map_congr_left
  intro p hp
  by_cases h : p.1 = y <;> simp [h]

theorem fillMap_map_fst (s e : Int) :
    ∀ (arrears : List (Int × ℚ)) (m : List (Int × Option ℚ)),
      (fillMap s e arrears m).map Prod.fst = m.map Prod.fst := by
  intro arrears
  induction arrears with
  | nil => intro m; rfl
  | cons a rest ih =>
    intro m
    by_cases hr : s ≤ a.1 ∧ a.1 ≤ e
    · have hstep : fillMap s e (a :: rest) m =
          fillMap s e rest (setYear m a.1 a.2) := by
        simp only [fillMap, List.foldl_cons, if_pos hr]
      rw [hstep, ih, setYear_map_fst]
    · have hstep : fillMap s e (a :: rest) m = fillMap s e rest m := by
        simp only [fillMap, List.foldl_cons, if_neg hr]
      rw [hstep, ih]

theorem buildArrearsMap_map_fst (s e : Int) (arrears : List (Int × ℚ)) :
    (buildArrearsMap s e arrears).map Prod.fst = yearsList s e := by
  rw [buildArrearsMap, fillMap_map_fst, initMap, List.map_map]
  have hcomp : Prod.fst ∘ (fun y : Int => (y, (none : Option ℚ))) = id := rfl
  rw [hcomp, List.map_id]

theorem lookupYear_mapNone :
    ∀ (l : List Int) (y : Int), y ∈ l →
      lookupYear (l.map (fun z => (z, (none : Option ℚ)))) y = some none := by
  intro l
  induction l with
  | nil => intro y hy; simp at hy
  | cons a rest ih =>
    intro y hy
    by_cases h : a = y
    · rw [List.map_cons]
      unfold lookupYear
      rw [List.find?_cons_of_pos _ (by simp [h])]
      rfl
    · have hy2 : y ∈ rest := by
        rcases List.mem_cons.mp hy with h2 | h2
        · exact absurd h2.symm h
        · exact h2
      rw [List.map_cons]
      unfold lookupYear
      rw [List.find?_cons_of_neg _ (by simp [h])]
      exact ih y hy2

theorem lookupYear_initMap (s e y : Int) (hy : y ∈ yearsList s e) :
    lookupYear (initMap s e) y = some none := by
  rw [initMap]
  exact lookupYear_mapNone (yearsList s e) y hy

theorem setYear_cons (p : Int × Option ℚ) (rest : List (Int × Option ℚ))
    (k : Int) (v : ℚ) :
    setYear (p :: rest) k v =
      (if p.1 = k then (p.1, some v) else p) :: setYear rest k v := by
  simp only [setYear, List.map_cons]

theorem lookupYear_setYear_self (m : List (Int × Option ℚ)) (y : Int)
    (v : ℚ) (b : Option ℚ) (hb : lookupYear m y = some b) :
    lookupYear (setYear m y v) y = some (some v) := by
  induction m with
  | nil => simp [lookupYear] at hb
  | cons p rest ih =>
    by_cases h : p.1 = y
    · rw [setYear_cons, if_pos h]
      unfold lookupYear
      rw [List.find?_cons_of_pos _ (by simp [h])]
      rfl
    · have hb2 : lookupYear rest y = some b := by
        unfold lookupYear at hb ⊢
        rwa [List.find?_cons_of_neg _ (by simp [h])] at hb
      rw [setYear_cons, if_neg h]
      unfold lookupYear
      rw [List.find?_cons_of_neg _ (by simp [h])]
      exact ih hb2

theorem lookupYear_setYear_ne (m : List (Int × Option ℚ)) (k : Int)
    (v : ℚ) (z : Int) (hkz : k ≠ z) :
    lookupYear (setYear m k v) z = lookupYear m z := by
  induction m with
  | nil => rfl
  | cons p rest ih =>
    by_cases h : p.1 = k
    · have hz : ¬p.1 = z := by rw [h]; exact hkz
      rw [setYear_cons, if_pos h]
      unfold lookupYear
      rw [List.find?_cons_of_neg _ (by simp [hz]),
        List.find?_cons_of_neg _ (by simp [hz])]
      exact ih
    · by_cases hz : p.1 = z
      · rw [setYear_cons, if_neg h]
        unfold lookupYear
        rw [List.find?_cons_of_pos _ (by simp [hz]),
          List.find?_cons_of_pos _ (by simp [hz])]
      · rw [setYear_cons, if_neg h]
        unfold lookupYear
        rw [List.find?_cons_of_neg _ (by simp [hz]),
          List.find?_cons_of_neg _ (by simp [hz])]
        exact ih

theorem lookupYear_fillMap (s e : Int) :
    ∀ (arrears : List (Int × ℚ)) (m : List (Int × Option ℚ)) (y : Int)
      (b : Option ℚ), lookupYear m y = some b →
      lookupYear (fillMap s e arrears m) y =
        some (foldValue s e arrears b y) := by
  intro arrears
  induction arrears with
  | nil => intro m y b hb; simpa [fillMap, foldValue] using hb
  | cons a rest ih =>
    intro m y b hb
    by_cases hr : s ≤ a.1 ∧ a.1 ≤ e
    · by_cases ha : a.1 = y
      · have hstep : fillMap s e (a :: rest) m =
            fillMap s e rest (setYear m a.1 a.2) := by
          simp only [fillMap, List.foldl_cons, if_pos hr]
        have hval : foldValue s e (a :: rest) b y =
            foldValue s e rest (some a.2) y := by
          simp only [foldValue, List.foldl_cons, if_pos (And.intro hr ha)]
        rw [hstep, hval]
        apply ih
        rw [ha]
        exact lookupYear_setYear_self m y a.2 b hb
      · have hstep : fillMap s e (a :: rest) m =
            fillMap s e rest (setYear m a.1 a.2) := by
          simp only [fillMap, List.foldl_cons, if_pos hr]
        have hval : foldValue s e (a :: rest) b y =
            foldValue s e rest b y := by
          simp only [foldValue, List.foldl_cons]
          rw [if_neg (by tauto)]
        rw [hstep, hval]
        apply ih
        rw [lookupYear_setYear_ne m a.1 a.2 y ha]
        exact hb
    · have hstep : fillMap s e (a :: rest) m = fillMap s e rest m := by
        simp only [fillMap, List.foldl_cons, if_neg hr]
      have hval : foldValue s e (a :: rest) b y =
          foldValue s e rest b y := by
        simp only [foldValue, List.foldl_cons]
        rw [if_neg (by tauto)]
      rw [hstep, hval]
      exact ih m y b hb

theorem foldValue_eq_spec (s e y : Int) (hy1 : s ≤ y) (hy2 : y ≤ e) :
    ∀ arrears : List (Int × ℚ),
      foldValue s e arrears none y = specYearValue arrears y := by
  intro arrears
  induction arrears using List.reverseRecOn with
  | nil => rfl
  | append_singleton l a ih =>
    by_cases ha : a.1 = y
    · have hstep : foldValue s e (l ++ [a]) none y = some a.2 := by
        simp only [foldValue, List.foldl_append, List.foldl_cons,
          List.foldl_nil]
        rw [if_pos ⟨by constructor <;> omega, ha⟩]
      have hspec : specYearValue (l ++ [a]) y = some a.2 := by
        simp only [specYearValue, List.filter_append]
        rw [List.filter_cons_of_pos (by simpa using ha), List.filter_nil]
        rw [List.getLast?_concat]
        rfl
      rw [hstep, hspec]
    · have hstep : foldValue s e (l ++ [a]) none y =
          foldValue s e l none y := by
        simp only [foldValue, List.foldl_append, List.foldl_cons,
          List.foldl_nil]
        rw [if_neg (by tauto)]
      have hspec : specYearValue (l ++ [a]) y = specYearValue l y := by
        simp only [specYearValue, List.filter_append]
        rw [List.filter_cons_of_neg (by simpa using ha), List.filter_nil,
          List.append_nil]
      rw [hstep, hspec, ih]

theorem fillMap_filter (s e : Int) :
    ∀ (arrears : List (Int × ℚ)) (m : List (Int × Option ℚ)),
      fillMap s e (arrears.filter (fun a => decide (s ≤ a.1 ∧ a.1 ≤ e))) m =
        fillMap s e arrears m := by
  intro arrears
  induction arrears with
  | nil => intro m; rfl
  | cons a rest ih =>
    intro m
    by_cases hr : s ≤ a.1 ∧ a.1 ≤ e
    · rw [List.filter_cons_of_pos (by simpa using hr)]
      have h1 : fillMap s e
          (a :: rest.filter (fun a => decide (s ≤ a.1 ∧ a.1 ≤ e))) m =
          fillMap s e (rest.filter (fun a => decide (s ≤ a.1 ∧ a.1 ≤ e)))
            (setYear m a.1 a.2) := by
        simp only [fillMap, List.foldl_cons, if_pos hr]
      have h2 : fillMap s e (a :: rest) m =
          fillMap s e rest (setYear m a.1 a.2) := by
        simp only [fillMap, List.foldl_cons, if_pos hr]
      rw [h1, h2, ih]
    · rw [List.filter_cons_of_neg (by simpa using hr)]
      have h2 : fillMap s e (a :: rest) m = fillMap s e rest m := by
        simp only [fillMap, List.foldl_cons, if_neg hr]
      rw [h2, ih]

/-- C1: for every configured range `[s, e]` and extracted item, the
normalized map has exactly one entry per configured year, in order
(`map Prod.fst = yearsList`, where `yearsList` is exactly the years of
the range); an in-range year holds the `null` marker when absent from
the extracted pairs and the literal extracted amount (an explicit zero
included) when present; pairs outside the range change nothing — the
whole record built from the pre-filtered pairs is identical. -/
theorem mkRecord_normalization (s e : Int) (item : ExtractedItem) :
    ((mkRecord s e item).arrears.map Prod.fst = yearsList s e) ∧
    (∀ y : Int, y ∈ yearsList s e ↔ s ≤ y ∧ y ≤ e) ∧
    (∀ y ∈ yearsList s e,
      lookupYear (mkRecord s e item).arrears y =
        some (specYearValue item.arrears y)) ∧
    (mkRecord s e
        ⟨item.nama, item.nop,
          item.arrears.filter (fun a => decide (s ≤ a.1 ∧ a.1 ≤ e))⟩ =
      mkRecord s e item) := by
  refine ⟨buildArrearsMap_map_fst s e item.arrears, mem_yearsList s e, ?_, ?_⟩
  · intro y hy
    have hrange := (mem_yearsList s e y).mp hy
    have hinit := lookupYear_initMap s e y hy
    have := lookupYear_fillMap s e item.arrears (initMap s e) y none hinit
    rw [show (mkRecord s e item).arrears = buildArrearsMap s e item.arrears
        from rfl, buildArrearsMap, this,
      foldValue_eq_spec s e y hrange.1 hrange.2]
  · have hmap := fillMap_filter s e item.arrears (initMap s e)
    simp only [mkRecord, buildArrearsMap]
    rw [hmap]

def itemC1 : ExtractedItem := ⟨"Budi", "123", [(2021, 5), (2019, 7)]⟩

theorem mkRecord_normalization_witness :
    (2021 : Int) ∈ yearsList 2020 2022 ∧
    lookupYear (mkRecord 2020 2022 itemC1).arrears 2021 =
      some (specYearValue itemC1.arrears 2021) :=
  ⟨by decide,
    (mkRecord_normalization 2020 2022 itemC1).2.2.1 2021 (by decide)⟩

theorem totalOf_go (m : List (Int × Option ℚ)) :
    ∀ c : ℚ, m.foldl (fun sum p => sum + posVal p.2) c =
      c + ((m.filterMap Prod.snd).filter (fun x => decide (0 < x))).sum := by
  induction m with
  | nil => intro c; simp
  | cons p rest ih =>
    intro c
    rcases p with ⟨py, pv⟩
    have hcons : List.foldl (fun sum p => sum + posVal p.2) c ((py, pv) :: rest) =
        List.foldl (fun sum p => sum + posVal p.2) (c + posVal pv) rest := rfl
    rw [hcons, ih (c + posVal pv)]
    cases pv with
    | none => simp [posVal]
    | some x =>
      by_cases hx : 0 < x
      · simp [posVal, hx, List.filterMap_cons, add_assoc]
      · simp [posVal, hx, List.filterMap_cons]

/-- C2: every record produced by the normalization has `total` equal to
the sum of the strictly positive non-`null` amounts of its year map;
zero, negative and `null` entries contribute nothing. -/
theorem processItems_total (s e : Int) (items : List ExtractedItem) :
    ∀ r ∈ processItems s e items,
      r.total =
        ((r.arrears.filterMap Prod.snd).filter (fun x => decide (0 < x))).sum := by
  intro r hr
  rcases List.mem_map.mp hr with ⟨item, _, rfl⟩
  show totalOf (buildArrearsMap s e item.arrears) =
    (((buildArrearsMap s e item.arrears).filterMap Prod.snd).filter
      (fun x => decide (0 < x))).sum
  rw [totalOf, totalOf_go]
  simp

def itemC2 : ExtractedItem := ⟨"X", "Y", [(2020, 5), (2021, -3), (2022, 0)]⟩

theorem processItems_total_witness :
    mkRecord 2020 2022 itemC2 ∈ processItems 2020 2022 [itemC2] ∧
    (mkRecord 2020 2022 itemC2).total =
      (((mkRecord 2020 2022 itemC2).arrears.filterMap Prod.snd).filter
        (fun x => decide (0 < x))).sum :=
  ⟨List.mem_singleton.mpr rfl,
    processItems_total 2020 2022 [itemC2] (mkRecord 2020 2022 itemC2)
      (List.mem_singleton.mpr rfl)⟩

theorem collectBatch_first_error (msg : String)
    (post : List (Except String (List TaxRecord))) :
    ∀ pre : List (Except String (List TaxRecord)),
      (∀ f ∈ pre, ∃ rs, f = Except.ok rs) →
      ∀ acc, collectBatch (pre ++ Except.error msg :: post) acc =
        Except.error (if jsIncludes msg "429" then "QUOTA_EXCEEDED" else msg) := by
  intro pre
  induction pre with
  | nil => intro _ acc; rfl
  | cons f rest ih =>
    intro hok acc
    rcases hok f (by simp) with ⟨rs, rfl⟩
    exact ih (fun f hf => hok f (by simp [hf])) (acc ++ rs)

/-- C9 counterexample: a batch failure whose message is exactly the
internal sentinel string `QUOTA_EXCEEDED` — a message that does NOT
contain `429` — is nevertheless surfaced with the dedicated quota
message rather than the generic one, because the outer catch compares
the message against the sentinel. -/
theorem handleFileUpload_sentinel_collision :
    jsIncludes "QUOTA_EXCEEDED" "429" = false ∧
    handleFileUpload [] [Except.error "QUOTA_EXCEEDED"] =
      ([], some quotaMessage) ∧
    quotaMessage ≠ genericMessage := by
  refine ⟨by decide, by decide, by decide⟩

/-- C9 (amended): a batch failure whose message contains `429` is
surfaced with the quota message; a failure whose message is exactly the
internal sentinel `QUOTA_EXCEEDED` is also surfaced with the quota
message; every other failure is surfaced with the generic message. In
all three cases exactly one banner is shown and no records are
committed. -/
theorem handleFileUpload_error_classification (prev : List TaxRecord)
    (pre : List (Except String (List TaxRecord))) (msg : String)
    (post : List (Except String (List TaxRecord)))
    (hpre : ∀ f ∈ pre, ∃ rs, f = Except.ok rs) :
    (jsIncludes msg "429" = true →
      handleFileUpload prev (pre ++ Except.error msg :: post) =
        (prev, some quotaMessage)) ∧
    (jsIncludes msg "429" = false → msg = "QUOTA_EXCEEDED" →
      handleFileUpload prev (pre ++ Except.error msg :: post) =
        (prev, some quotaMessage)) ∧
    (jsIncludes msg "429" = false → msg ≠ "QUOTA_EXCEEDED" →
      handleFileUpload prev (pre ++ Except.error msg :: post) =
        (prev, some genericMessage)) := by
  have hc := collectBatch_first_error msg post pre hpre []
  refine ⟨?_, ?_, ?_⟩
  · intro h4
    simp [handleFileUpload, hc, h4]
  · intro h4 hsent
    subst hsent
    simp [handleFileUpload, hc, h4]
  · intro h4 hsent
    simp [handleFileUpload, hc, h4, hsent]

theorem handleFileUpload_error_classification_witness :
    jsIncludes "parse failure" "429" = false ∧
    handleFileUpload []
        ([Except.ok [recNop "A"]] ++ Except.error "parse failure" :: []) =
      ([], some genericMessage) :=
  ⟨by decide,
    (handleFileUpload_error_classification [] [Except.ok [recNop "A"]]
        "parse failure" []
        (fun f hf => ⟨[recNop "A"], List.mem_singleton.mp hf⟩)).2.2
      (by decide) (by decide)⟩

/-- The shape of the model response as `processTaxPDF` reads it:
`text` is `none` when the field is absent, `some ""` when empty. -/
structure GenResponse where
  text : Option String
deriving DecidableEq

/-- `response.text || "[]"` (line 77): an absent or empty text field is
replaced by the literal `"[]"` before JSON parsing. -/
def effectiveText (resp : GenResponse) : String :=
  match resp.text with
  | none => "[]"
  | some t => if t = "" then "[]" else t

/-- `processTaxPDF` after the model call: the call (behind `withRetry`
with the default budget 3) yields a response, whose effective text is
JSON-parsed (`parse` models the platform `JSON.parse` restricted to the
schema's array shape) and then normalized by `processItems`. The trace
fields record the retry wrapper's waits and calls. -/
def processTaxPDF (s e : Int)
    (parse : String → Except String (List ExtractedItem))
    (call : Nat → Except String GenResponse) : RetryTrace (List TaxRecord) :=
  let tr := withRetry call 3
  match tr.result with
  | Except.error m => ⟨Except.error m, tr.waits, tr.calls⟩
  | Except.ok resp =>
    match parse (effectiveText resp) with
    | Except.error m => ⟨Except.error m, tr.waits, tr.calls⟩
    | Except.ok items => ⟨Except.ok (processItems s e items), tr.waits, tr.calls⟩

theorem processTaxPDF_waits (s e : Int)
    (parse : String → Except String (List ExtractedItem))
    (call : Nat → Except String GenResponse) :
    (processTaxPDF s e parse call).waits = (withRetry call 3).waits ∧
    (processTaxPDF s e parse call).calls = (withRetry call 3).calls := by
  constructor <;>
    · simp only [processTaxPDF]
      split
      · rfl
      · split <;> rfl

/-- C10: (a) when the model call (after retries) succeeds with an absent
or empty text field, `processTaxPDF` returns the empty record list for
any parser that parses `"[]"` as the empty array — no parse error. (b) A
parse error can only come from a non-empty response body that the parser
rejects. (c) The retry trace (waits and call count) is independent of
the parser: parsing happens after the retry wrapper, so a malformed body
is never retried. -/
theorem processTaxPDF_empty_text (s e : Int)
    (parse : String → Except String (List ExtractedItem))
    (call : Nat → Except String GenResponse)
    (hparse : parse "[]" = Except.ok []) :
    (∀ resp, (withRetry call 3).result = Except.ok resp →
      (resp.text = none ∨ resp.text = some "") →
      (processTaxPDF s e parse call).result = Except.ok []) ∧
    (∀ resp m, (withRetry call 3).result = Except.ok resp →
      (processTaxPDF s e parse call).result = Except.error m →
      ∃ body, resp.text = some body ∧ body ≠ "" ∧
        parse body = Except.error m) ∧
    (∀ parse2 : String → Except String (List ExtractedItem),
      (processTaxPDF s e parse2 call).waits = (withRetry call 3).waits ∧
      (processTaxPDF s e parse2 call).calls = (withRetry call 3).calls) := by
  refine ⟨?_, ?_, fun parse2 => processTaxPDF_waits s e parse2 call⟩
  · intro resp hres htext
    have heff : effectiveText resp = "[]" := by
      rcases htext with h | h <;> simp [effectiveText, h]
    simp [processTaxPDF, hres, heff, hparse, processItems]
  · intro resp m hres herr
    rcases hres2 : resp.text with _ | t
    · have heff : effectiveText resp = "[]" := by simp [effectiveText, hres2]
      simp [processTaxPDF, hres, heff, hparse, processItems] at herr
    · by_cases ht : t = ""
      · have heff : effectiveText resp = "[]" := by
          simp [effectiveText, hres2, ht]
        simp [processTaxPDF, hres, heff, hparse, processItems] at herr
      · have heff : effectiveText resp = t := by
          simp [effectiveText, hres2, ht]
        refine ⟨t, rfl, ht, ?_⟩
        rcases hp : parse t with m2 | items
        · simp only [processTaxPDF, hres, heff, hp] at herr
          have hm : m2 = m := by injection herr
          rw [hm]
        · simp [processTaxPDF, hres, heff, hp] at herr

def parseC10 : String → Except String (List ExtractedItem) :=
  fun str => if str = "[]" then Except.ok [] else Except.error "unexpected token"

def callC10 : Nat → Except String GenResponse :=
  fun _ => Except.ok ⟨none⟩

theorem processTaxPDF_empty_text_witness :
    parseC10 "[]" = Except.ok [] ∧
    (withRetry callC10 3).result = Except.ok ⟨none⟩ ∧
    (processTaxPDF 2020 2022 parseC10 callC10).result = Except.ok [] :=
  ⟨rfl, rfl,
    (processTaxPDF_empty_text 2020 2022 parseC10 callC10 rfl).1 ⟨none⟩ rfl
      (Or.inl rfl)⟩

/-- `records.map(r => r.nop)` (`App.tsx` line 114). -/
def nopsOf (records : List TaxRecord) : List String :=
  records.map (fun r => r.nop)

/-- `nops.filter((nop, index) => nops.indexOf(nop) !== index)` (line
115): every occurrence that is not the first occurrence of its value. -/
def duplicatesRaw (nops : List String) : List String :=
  ((nops.enum).filter (fun p => nops.indexOf p.2 != p.1)).map Prod.snd

/-- `Array.from(new Set(...))`: JS `Set` keeps first-insertion order, so
this keeps the first occurrence of each value. `seen` is the set built
so far. -/
def dedupFirstAux : List String → List String → List String
  | [], _ => []
  | x :: xs, seen =>
    if x ∈ seen then dedupFirstAux xs seen
    else x :: dedupFirstAux xs (x :: seen)

def dedupFirst (l : List String) : List String := dedupFirstAux l []

/-- The duplicate set reported by `generateSummary` (line 128). -/
def summaryDuplicates (records : List TaxRecord) : List String :=
  dedupFirst (duplicatesRaw (nopsOf records))

/-- The anomaly string pushed for a mismatching record (line 124). -/
def anomalyMsg (nop : String) : String :=
  "Ketidaksesuaian total untuk NOP " ++ nop

/-- The anomaly scan of `generateSummary` (lines 117-126): recompute the
positive-sum total of each record's arrears values and flag the record
when it differs from the stored total by more than 0.01. -/
def summaryAnomalies (records : List TaxRecord) : List String :=
  records.foldl
    (fun acc r =>
      if |totalOf r.arrears - r.total| > (0.01 : ℚ) then
        acc ++ [anomalyMsg r.nop]
      else acc)
    []

/-- `ValidationSummary` (`types.ts`). -/
structure ValidationSummary where
  totalRecords : Nat
  duplicates : List String
  anomalies : List String
deriving DecidableEq

/-- `generateSummary` (`App.tsx` lines 113-135). -/
def generateSummary (records : List TaxRecord) : ValidationSummary :=
  ⟨records.length, summaryDuplicates records, summaryAnomalies records⟩

theorem indexOf_le_of_getElem? :
    ∀ (l : List String) (i : Nat) (s : String),
      l[i]? = some s → l.indexOf s ≤ i := by
  intro l
  induction l with
  | nil => intro i s h; simp at h
  | cons a rest ih =>
    intro i s h
    cases i with
    | zero =>
      simp only [List.getElem?_cons_zero, Option.some.injEq] at h
      subst h
      simp [List.indexOf_cons_self]
    | succ j =>
      simp only [List.getElem?_cons_succ] at h
      by_cases has : a = s
      · subst has
        simp [List.indexOf_cons_self]
      · rw [List.indexOf_cons_ne _ has]
        have := ih j s h
        omega

theorem two_le_count_of_two_getElem? :
    ∀ (l : List String) (i j : Nat) (s : String), i < j →
      l[i]? = some s → l[j]? = some s → 1 < l.count s := by
  intro l
  induction l with
  | nil => intro i j s hij hi hj; simp at hi
  | cons a rest ih =>
    intro i j s hij hi hj
    cases i with
    | zero =>
      simp only [List.getElem?_cons_zero, Option.some.injEq] at hi
      subst hi
      cases j with
      | zero => omega
      | succ j2 =>
        simp only [List.getElem?_cons_succ] at hj
        have hmem : a ∈ rest := List.getElem?_mem hj
        have hpos : 0 < rest.count a := List.count_pos_iff.mpr hmem
        rw [List.count_cons_self]
        omega
    | succ i2 =>
      cases j with
      | zero => omega
      | succ j2 =>
        simp only [List.getElem?_cons_succ] at hi hj
        have hlt := ih i2 j2 s (by omega) hi hj
        rw [List.count_cons]
        split <;> omega

theorem exists_two_getElem?_of_count :
    ∀ (l : List String) (s : String), 1 < l.count s →
      ∃ i j : Nat, i < j ∧ l[i]? = some s ∧ l[j]? = some s := by
  intro l
  induction l with
  | nil => intro s h; simp at h
  | cons a rest ih =>
    intro s h
    by_cases has : a = s
    · subst has
      rw [List.count_cons_self] at h
      have hmem : a ∈ rest := by
        by_contra hmem
        rw [List.count_eq_zero_of_not_mem hmem] at h
        omega
      rcases List.getElem?_of_mem hmem with ⟨k, hk⟩
      exact ⟨0, k + 1, by omega, by simp, by simpa using hk⟩
    · have h2 : 1 < rest.count s := by
        rwa [List.count_cons_of_ne (fun hh => has hh.symm)] at h
      rcases ih s h2 with ⟨i, j, hij, hi, hj⟩
      exact ⟨i + 1, j + 1, by omega, by simpa using hi, by simpa using hj⟩

theorem mem_duplicatesRaw (l : List String) (s : String) :
    s ∈ duplicatesRaw l ↔ 1 < l.count s := by
  constructor
  · intro hs
    rcases List.mem_map.mp hs with ⟨p, hp, rfl⟩
    rcases List.mem_filter.mp hp with ⟨hpmem, hpred⟩
    have hget : l[p.1]? = some p.2 := List.mem_enum_iff_getElem?.mp hpmem
    have hidx : l.indexOf p.2 ≠ p.1 := by simpa using hpred
    have hle : l.indexOf p.2 ≤ p.1 := indexOf_le_of_getElem? l p.1 p.2 hget
    have hmem2 : p.2 ∈ l := List.getElem?_mem hget
    have hgetidx : l[l.indexOf p.2]? = some p.2 := List.getElem?_indexOf hmem2
    exact two_le_count_of_two_getElem? l (l.indexOf p.2) p.1 p.2
      (lt_of_le_of_ne hle hidx) hgetidx hget
  · intro hc
    rcases exists_two_getElem?_of_count l s hc with ⟨i, j, hij, hi, hj⟩
    apply List.mem_map.mpr
    refine ⟨(j, s), ?_, rfl⟩
    apply List.mem_filter.mpr
    refine ⟨List.mem_enum_iff_getElem?.mpr hj, ?_⟩
    have hle : l.indexOf s ≤ i := indexOf_le_of_getElem? l i s hi
    simp only [bne_iff_ne, ne_eq, decide_eq_true_eq]
    omega

theorem mem_dedupFirstAux :
    ∀ (l seen : List String) (s : String),
      s ∈ dedupFirstAux l seen ↔ s ∈ l ∧ s ∉ seen := by
  intro l
  induction l with
  | nil => intro seen s; simp [dedupFirstAux]
  | cons x xs ih =>
    intro seen s
    by_cases hx : x ∈ seen
    · rw [show dedupFirstAux (x :: xs) seen = dedupFirstAux xs seen from by
        simp [dedupFirstAux, hx]]
      rw [ih seen s, List.mem_cons]
      constructor
      · rintro ⟨h1, h2⟩
        exact ⟨Or.inr h1, h2⟩
      · rintro ⟨h1 | h1, h2⟩
        · subst h1; exact absurd hx h2
        · exact ⟨h1, h2⟩
    · rw [show dedupFirstAux (x :: xs) seen =
          x :: dedupFirstAux xs (x :: seen) from by simp [dedupFirstAux, hx]]
      rw [List.mem_cons, ih (x :: seen) s, List.mem_cons, List.mem_cons]
      by_cases hsx : s = x
      · subst hsx
        simp [hx]
      · simp [hsx]

theorem nodup_dedupFirstAux :
    ∀ (l seen : List String), (dedupFirstAux l seen).Nodup := by
  intro l
  induction l with
  | nil => intro seen; simp [dedupFirstAux]
  | cons x xs ih =>
    intro seen
    by_cases hx : x ∈ seen
    · rw [show dedupFirstAux (x :: xs) seen = dedupFirstAux xs seen from by
        simp [dedupFirstAux, hx]]
      exact ih seen
    · rw [show dedupFirstAux (x :: xs) seen =
          x :: dedupFirstAux xs (x :: seen) from by simp [dedupFirstAux, hx]]
      refine List.nodup_cons.mpr ⟨?_, ih (x :: seen)⟩
      intro hmem
      have := (mem_dedupFirstAux xs (x :: seen) x).mp hmem
      exact this.2 (by simp)

/-- C6: the reported duplicate list contains each object identifier at
most once, and contains an identifier exactly when it occurs more than
once among the records' identifiers (so a first occurrence alone never
creates a duplicate); on the identifier sequence A,B,A,C,A the reported
set is exactly A. -/
theorem generateSummary_duplicates (records : List TaxRecord) :
    ((generateSummary records).duplicates.Nodup) ∧
    (∀ s : String, s ∈ (generateSummary records).duplicates ↔
      1 < (nopsOf records).count s) ∧
    (generateSummary
        [recNop "A", recNop "B", recNop "A", recNop "C", recNop "A"]).duplicates
      = ["A"] := by
  refine ⟨nodup_dedupFirstAux _ _, ?_, by decide⟩
  intro s
  show s ∈ dedupFirstAux (duplicatesRaw (nopsOf records)) [] ↔ _
  rw [mem_dedupFirstAux]
  simp [mem_duplicatesRaw]

theorem summaryAnomalies_go :
    ∀ (rs : List TaxRecord) (acc : List String),
      rs.foldl
        (fun acc r =>
          if |totalOf r.arrears - r.total| > (0.01 : ℚ) then
            acc ++ [anomalyMsg r.nop]
          else acc) acc =
      acc ++ (rs.filter
          (fun r => decide (|totalOf r.arrears - r.total| > (0.01 : ℚ)))).map
        (fun r => anomalyMsg r.nop) := by
  intro rs
  induction rs with
  | nil => intro acc; simp
  | cons r rest ih =>
    intro acc
    by_cases h : |totalOf r.arrears - r.total| > (0.01 : ℚ)
    · rw [show (r :: rest).foldl
          (fun acc r =>
            if |totalOf r.arrears - r.total| > (0.01 : ℚ) then
              acc ++ [anomalyMsg r.nop]
            else acc) acc =
          rest.foldl
            (fun acc r =>
              if |totalOf r.arrears - r.total| > (0.01 : ℚ) then
                acc ++ [anomalyMsg r.nop]
              else acc) (acc ++ [anomalyMsg r.nop]) from by
        simp only [List.foldl_cons, if_pos h]]
      rw [ih, List.filter_cons_of_pos (by simpa using h), List.map_cons,
        List.append_assoc, List.singleton_append]
    · rw [show (r :: rest).foldl
          (fun acc r =>
            if |totalOf r.arrears - r.total| > (0.01 : ℚ) then
              acc ++ [anomalyMsg r.nop]
            else acc) acc =
          rest.foldl
            (fun acc r =>
              if |totalOf r.arrears - r.total| > (0.01 : ℚ) then
                acc ++ [anomalyMsg r.nop]
              else acc) acc from by simp only [List.foldl_cons, if_neg h]]
      rw [ih, List.filter_cons_of_neg (by simpa using h)]

def mismatchRec : TaxRecord := ⟨"M", "N1", [(2020, some 85)], 100, []⟩

def closeRec : TaxRecord := ⟨"C", "N2", [(2020, some 85)], 85.005, []⟩

/-- C7: a record is flagged as a total-mismatch anomaly exactly when
the recomputed positive-sum of its arrears values differs from its
stored total by more than 0.01 (the anomaly list is precisely the
filtered records, in order); a record with stored total 100 but
recomputed sum 85 is flagged, and one whose stored total is within 0.01
of the recomputed sum is not. -/
theorem generateSummary_anomalies (records : List TaxRecord) :
    ((generateSummary records).anomalies =
      (records.filter
          (fun r => decide (|totalOf r.arrears - r.total| > (0.01 : ℚ)))).map
        (fun r => anomalyMsg r.nop)) ∧
    (generateSummary [mismatchRec]).anomalies = [anomalyMsg "N1"] ∧
    (generateSummary [closeRec]).anomalies = [] := by
  have hsingle : ∀ r : TaxRecord, summaryAnomalies [r] =
      if |totalOf r.arrears - r.total| > (0.01 : ℚ) then [anomalyMsg r.nop]
      else [] := by
    intro r
    rw [summaryAnomalies]
    by_cases h : |totalOf r.arrears - r.total| > (0.01 : ℚ) <;>
      simp [List.foldl_cons, h]
  refine ⟨?_, ?_, ?_⟩
  · show summaryAnomalies records = _
    rw [summaryAnomalies, summaryAnomalies_go]
    rw [List.nil_append]
  · show summaryAnomalies [mismatchRec] = _
    rw [hsingle]
    have htot : totalOf mismatchRec.arrears = 85 := by
      show List.foldl _ (0 : ℚ) [((2020 : Int), some (85 : ℚ))] = 85
      simp [posVal]
    rw [if_pos (by rw [htot]; show |(85 : ℚ) - 100| > (0.01 : ℚ); norm_num)]
    rfl
  · show summaryAnomalies [closeRec] = _
    rw [hsingle]
    have htot : totalOf closeRec.arrears = 85 := by
      show List.foldl _ (0 : ℚ) [((2020 : Int), some (85 : ℚ))] = 85
      simp [posVal]
    rw [if_neg ?hc]
    case hc =>
      rw [htot]
      show ¬(|(85 : ℚ) - 85.005| > (0.01 : ℚ))
      have h5 : |(85 : ℚ) - 85.005| = 0.005 := by
        rw [show (85 : ℚ) - 85.005 = -0.005 by norm_num, abs_neg,
          abs_of_nonneg (by norm_num)]
      rw [h5]
      norm_num

/-- JS number→string coercion as used by `Array.prototype.join`: exact
for integral values, which are the only amounts the claims pin down;
other rationals fall back to the rational printer. -/
def csvNumString (q : ℚ) : String :=
  if q.den = 1 then toString q.num else toString q

/-- One year cell of a CSV row (line 93):
`record.arrears[year] !== null ? record.arrears[year] : ''`, followed by
`join`, which renders `null`/absent as the empty string and a number
via its decimal representation. -/
def csvCell (m : List (Int × Option ℚ)) (y : Int) : String :=
  match lookupYear m y with
  | some (some v) => csvNumString v
  | _ => ""

/-- One CSV data row (lines 89-96): quoted name, apostrophe-prefixed
object identifier, one cell per configured year, stored total, joined
with commas. -/
def csvRow (s e : Int) (r : TaxRecord) : String :=
  String.intercalate ","
    (("\"" ++ r.nama ++ "\"") :: ("\x27" ++ r.nop) ::
      ((yearsList s e).map (csvCell r.arrears) ++ [csvNumString r.total]))

/-- The header row (line 87): `Nama,NOP,<years>,Total`. -/
def csvHeader (s e : Int) : String :=
  String.intercalate ","
    ("Nama" :: "NOP" :: ((yearsList s e).map toString ++ ["Total"]))

/-- `exportToCSV` (lines 84-99): header and rows joined by newlines,
with the byte-order mark prepended (line 100). -/
def exportToCSV (s e : Int) (records : List TaxRecord) : String :=
  "\uFEFF" ++ String.intercalate "\n" (csvHeader s e :: records.map (csvRow s e))

def budiRecord : TaxRecord :=
  ⟨"Budi", "123", [(2020, none), (2021, some 500)], 500, []⟩

/-- C8: the CSV output always begins with the byte-order mark and
continues with the header row followed by one row per record; with the
configured range [2020, 2021] the header row is
`Nama,NOP,2020,2021,Total`, and the record
(nama `Budi`, nop `123`, 2020 → null, 2021 → 500, total 500)
serializes to the quoted-name, apostrophe-prefixed-nop row
`"Budi",'123,,500,500`. -/
theorem exportToCSV_format :
    (∀ (s e : Int) (records : List TaxRecord),
      exportToCSV s e records =
        "\uFEFF" ++ String.intercalate "\n"
          (csvHeader s e :: records.map (csvRow s e))) ∧
    csvHeader 2020 2021 = "Nama,NOP,2020,2021,Total" ∧
    csvRow 2020 2021 budiRecord = "\"Budi\",\x27123,,500,500" ∧
    exportToCSV 2020 2021 [budiRecord] =
      "\uFEFF" ++ "Nama,NOP,2020,2021,Total" ++ "\n" ++
        "\"Budi\",\x27123,,500,500" := by
  refine ⟨fun s e records => rfl, by decide, by decide, by decide⟩
